import Mathlib

/-!
Verification of the einmir-suite batch capture pipeline.

Shallow embedding of:
* `src/lib/capture/recorder.ts` — recording session (chunk buffering,
  start/stop), region compositor (`createCroppedStream` / `drawFrame`),
  capture acquisition and cleanup (`requestScreenCapture`).
* `src/hooks/use-bulk-processor.ts` — the batch orchestrator
  (`processItem`, `startProcessing`, `updateProgress`, cancellation).

External collaborators (load, compliance, recording, proof pack) are
modelled as `Except String` valued environments; throwing a JS exception
with message `m` is modelled as `Except.error m`.  Wall-clock time is not
modelled: `Date.now()`-derived fields (`startTime`, `processingTimeMs`)
are fixed to `0`.  Cancellation, which in the source is a mutable flag
polled at fixed checkpoints, is modelled by a schedule `Option Nat`
giving the first checkpoint index at which the flag reads true
(checkpoints are numbered `4*i + 0..3` for item `i`: loop top, after
settle, after compliance, after recording stop — exactly the four poll
sites in the source).
-/

namespace Einmir

/-! ## Recording session (`createRecorder`, recorder.ts lines 225-329)

A chunk is a byte list; `Blob` concatenation is list flattening.
`handleData` is the `ondataavailable` handler (line 255): zero-size
chunks are never buffered. -/

structure RecState where
  chunks : List (List Nat)
  isRecording : Bool
  isPaused : Bool
deriving Repr, DecidableEq

def handleData (s : RecState) (data : List Nat) : RecState :=
  if data.length > 0 then { s with chunks := s.chunks ++ [data] } else s

/-- `start` (line 263): clears any prior buffered chunks, enters recording. -/
def startRecorder (s : RecState) : RecState :=
  { s with chunks := [], isRecording := true, isPaused := false }

/-- `stop` (line 273): rejects with "No data recorded" when no chunk was
buffered, otherwise resolves with the concatenation of the buffered
chunks in arrival order. -/
def stopRecorder (s : RecState) : Except String (List Nat) × RecState :=
  let s1 := { s with isRecording := false, isPaused := false }
  if s.chunks.length = 0 then (Except.error "No data recorded", s1)
  else (Except.ok s.chunks.flatten, s1)

/-- One full session: `start`, a sequence of `ondataavailable` events,
then `stop`. -/
def recordSession (s0 : RecState) (events : List (List Nat)) :
    Except String (List Nat) × RecState :=
  stopRecorder (events.foldl handleData (startRecorder s0))

/-! ## Region compositor (`createCroppedStream`, recorder.ts lines 68-197)

The crop accessors are re-read every tick.  A JS `number` that may be
`undefined`/`NaN` is modelled as `Option Int` (`none` = undefined/NaN);
the source guard `!width || !height || width <= 0 || height <= 0`
accepts exactly a defined strictly positive value. -/

structure TickInput where
  element : Bool
  width : Option Int
  height : Option Int
deriving Repr, DecidableEq

def dimOk : Option Int → Bool
  | none => false
  | some v => decide (0 < v)

structure CompositorState where
  isRunning : Bool
  canvasWidth : Int
  canvasHeight : Int
  drawCount : Nat
deriving Repr, DecidableEq

structure TickOutcome where
  state : CompositorState
  scheduledNext : Bool
  resized : Bool
  drew : Bool
deriving Repr, DecidableEq

/-- One tick of the compositing loop (`drawFrame`, lines 109-174).
`videoWidth`/`videoHeight` are the source video's decoded dimensions;
the source draws only when both are truthy (nonzero). -/
def drawFrame (videoWidth videoHeight : Int) (inp : TickInput)
    (s : CompositorState) : TickOutcome :=
  if !s.isRunning then ⟨s, false, false, false⟩
  else if !inp.element then ⟨s, true, false, false⟩
  else if !(dimOk inp.width && dimOk inp.height) then ⟨s, true, false, false⟩
  else
    let w := inp.width.getD 0
    let h := inp.height.getD 0
    let needResize := s.canvasWidth != w || s.canvasHeight != h
    let s1 := if needResize then { s with canvasWidth := w, canvasHeight := h } else s
    let canDraw := videoWidth != 0 && videoHeight != 0
    let s2 := if canDraw then { s1 with drawCount := s1.drawCount + 1 } else s1
    ⟨s2, true, needResize, canDraw⟩

/-- The tick loop over a sequence of accessor readings. -/
def runTicks (videoWidth videoHeight : Int) :
    CompositorState → List TickInput → CompositorState
  | s, [] => s
  | s, inp :: rest =>
      runTicks videoWidth videoHeight (drawFrame videoWidth videoHeight inp s).state rest

/-- A tick input is drawable when the element resolves and both
dimensions are defined and strictly positive (the source's validity
guard). -/
def validTick (inp : TickInput) : Bool :=
  inp.element && dimOk inp.width && dimOk inp.height

/-! ## Capture acquisition and release (`requestScreenCapture`, lines 202-220)

`rawTracksLive` models the raw capture stream's tracks (`true` = live);
`tickRunning`/`videoAttached` model the compositor loop and the hidden
video element's `srcObject` binding. -/

structure CaptureState where
  rawTracksLive : List Bool
  tickRunning : Bool
  videoAttached : Bool
deriving Repr, DecidableEq

/-- The cleanup closed over by `createCroppedStream` (lines 189-194):
stops the tick loop and detaches the video, leaving the raw tracks
untouched. -/
def croppedCleanup (s : CaptureState) : CaptureState :=
  { s with tickRunning := false, videoAttached := false }

/-- The `combinedCleanup` actually returned to callers of
`requestScreenCapture` in clip mode (lines 211-214): runs the cropped
cleanup, then stops every raw-stream track. -/
def combinedCleanup (s : CaptureState) : CaptureState :=
  let s1 := croppedCleanup s
  { s1 with rawTracksLive := s1.rawTracksLive.map (fun _ => false) }

/-! ## Batch orchestrator data model (`src/types/bulk.ts`,
`src/hooks/use-bulk-processor.ts`)

`id` is an opaque unique token (uuid in the source), modelled as `Nat`.
Proof-pack blobs are opaque, modelled as `Nat`. -/

inductive ItemStatus
  | pending | loading | checking | recording | processing | complete | error | skipped
deriving Repr, DecidableEq

/-- The raw status read back from `getComplianceResult` (may also be the
absent-field or absent-object cases, see `mapCompliance`). -/
inductive RawCompliance
  | pass | fail | warn | pending
deriving Repr, DecidableEq

/-- The narrowed per-item compliance status assigned by `processItem`
(type annotation at line 224: `"pass" | "fail" | "warn"`). -/
inductive ComplianceStatus
  | pass | fail | warn
deriving Repr, DecidableEq

/-- Status of a `CompletedItemInfo` entry. -/
inductive CompletedStatus
  | pass | fail | warn | error
deriving Repr, DecidableEq

def CompletedStatus.ofCompliance : ComplianceStatus → CompletedStatus
  | ComplianceStatus.pass => CompletedStatus.pass
  | ComplianceStatus.fail => CompletedStatus.fail
  | ComplianceStatus.warn => CompletedStatus.warn

inductive Phase
  | idle | preparing | processing | finalizing | complete | error | cancelled
deriving Repr, DecidableEq

structure BatchItem where
  id : Nat
  name : String
  status : ItemStatus
  error : Option String
  complianceStatus : Option ComplianceStatus
  proofPack : Option Nat
deriving Repr, DecidableEq

structure BatchState where
  items : List BatchItem
  isProcessing : Bool
  currentIndex : Int
deriving Repr, DecidableEq

structure CompletedItemInfo where
  id : Nat
  name : String
  status : CompletedStatus
  processingTimeMs : Nat
deriving Repr, DecidableEq

structure BatchErrorInfo where
  id : Nat
  name : String
  message : String
deriving Repr, DecidableEq

/-- Progress snapshot (`BulkProgress`).  `startTime` is wall clock and
is not modelled. -/
structure BulkProgress where
  phase : Phase
  currentItem : Int
  totalItems : Nat
  currentItemName : String
  currentItemStatus : String
  estimatedTimeRemaining : Int
  completedItems : List CompletedItemInfo
  errors : List BatchErrorInfo
deriving Repr, DecidableEq

def SECONDS_PER_AD : Int := 8

/-- The fields a call to the source's `updateProgress` may carry (only
`currentItem` and `currentItemStatus` are ever passed). -/
structure ProgressUpdates where
  currentItem : Option Int
  currentItemStatus : Option String
deriving Repr, DecidableEq

/-- `updateProgress` (use-bulk-processor.ts lines 166-175): merges the
updates and recomputes `estimatedTimeRemaining` only when the update
carries a `currentItem`. -/
def updateProgress (prev : BulkProgress) (u : ProgressUpdates) : BulkProgress :=
  { prev with
    currentItem := u.currentItem.getD prev.currentItem,
    currentItemStatus := u.currentItemStatus.getD prev.currentItemStatus,
    estimatedTimeRemaining :=
      match u.currentItem with
      | some ci => ((prev.totalItems : Int) - ci - 1) * SECONDS_PER_AD * 1000
      | none => prev.estimatedTimeRemaining }

/-- `updateItemStatus` (lines 157-164): maps over the item list by id,
setting `status` and `error` (the latter cleared when not passed). -/
def updateItemStatus (items : List BatchItem) (tid : Nat)
    (st : ItemStatus) (err : Option String) : List BatchItem :=
  items.map (fun it => if it.id = tid then { it with status := st, error := err } else it)

/-- The completing `setState` of `processItem` (lines 275-282): records
the resolved compliance status and proof pack on the completed item. -/
def markComplete (items : List BatchItem) (tid : Nat)
    (cs : ComplianceStatus) (pp : Option Nat) : List BatchItem :=
  items.map (fun it =>
    if it.id = tid then
      { it with status := ItemStatus.complete, complianceStatus := some cs, proofPack := pp }
    else it)

/-- `getComplianceResult` returns `{ status } | null` where `status` may
itself be null: outer `none` = the function returned null, inner `none`
= a null `status` field. -/
def mapCompliance (r : Option (Option RawCompliance)) : ComplianceStatus :=
  match r with
  | some (some RawCompliance.pass) => ComplianceStatus.pass
  | some (some RawCompliance.fail) => ComplianceStatus.fail
  | _ => ComplianceStatus.warn

/-- Behaviour of the external collaborators for one item.  A JS throw
with message `m` is `Except.error m`.  `load` covers `onLoadTag` /
`onLoadHtml5` / the missing-zip throw; `ready` is `waitForAdReady`;
`comp` is `onRunCompliance` + `getComplianceResult`; `record` is
`onStartRecording` + `onStopRecording`; `proof` is
`onGenerateProofPack`. -/
structure ItemEnv where
  load : Except String Unit
  ready : Except String Unit
  comp : Except String (Option (Option RawCompliance))
  record : Except String Unit
  proof : Except String (Option Nat)

/-- Cancellation model: `some t0` means the cooperative flag first reads
true at poll site `t0` (and at every later poll site). -/
def cancelledAt (sched : Option Nat) (t : Nat) : Bool :=
  match sched with
  | none => false
  | some t0 => decide (t0 ≤ t)

/-- The value `processItem` resolves with. -/
structure ProcessResult where
  success : Bool
  complianceStatus : Option ComplianceStatus
  proofPack : Option Nat
  error : Option String
deriving Repr, DecidableEq

/-- Everything one `processItem` call produced: its result, the updated
item list, the progress snapshot after its last write, the intermediate
progress snapshots it wrote (in order), and the item-status events it
emitted (in order). -/
structure ItemStep where
  result : ProcessResult
  items : List BatchItem
  progress : BulkProgress
  prLog : List BulkProgress
  log : List (Nat × ItemStatus)
deriving Repr

/-- The catch block of `processItem` (lines 289-296): record the message
on the item and resolve unsuccessfully. -/
def itemError (item : BatchItem) (msg : String) (items1 : List BatchItem)
    (pr : BulkProgress) (pl : List BulkProgress)
    (lg : List (Nat × ItemStatus)) : ItemStep :=
  { result := ⟨false, none, none, some msg⟩
    items := updateItemStatus items1 item.id ItemStatus.error (some msg)
    progress := pr
    prLog := pl
    log := lg ++ [(item.id, ItemStatus.error)] }

/-- The cancellation early-returns of `processItem` (lines 209-211,
230-232, 255-257). -/
def itemCancelled (items1 : List BatchItem) (pr : BulkProgress)
    (pl : List BulkProgress) (lg : List (Nat × ItemStatus)) : ItemStep :=
  { result := ⟨false, none, none, some "Cancelled"⟩
    items := items1
    progress := pr
    prLog := pl
    log := lg }

/-- `processItem` (lines 178-296), for item index `i` under cancellation
schedule `sched`.  Poll sites inside the item are `4*i+1` (after
settle), `4*i+2` (after the compliance read), `4*i+3` (after recording
stop). -/
def processItem (e : ItemEnv) (sched : Option Nat) (i : Nat) (item : BatchItem)
    (items0 : List BatchItem) (pr0 : BulkProgress) : ItemStep :=
  -- Step 1: load the ad, wait for ready, settle
  let items1 := updateItemStatus items0 item.id ItemStatus.loading none
  let pr1 := updateProgress pr0 ⟨none, some "Loading ad..."⟩
  let lg1 := [(item.id, ItemStatus.loading)]
  match e.load with
  | Except.error msg => itemError item msg items1 pr1 [pr1] lg1
  | Except.ok _ =>
    match e.ready with
    | Except.error msg => itemError item msg items1 pr1 [pr1] lg1
    | Except.ok _ =>
      if cancelledAt sched (4 * i + 1) then itemCancelled items1 pr1 [pr1] lg1
      else
        -- Step 2: run compliance, grace interval, read result
        let items2 := updateItemStatus items1 item.id ItemStatus.checking none
        let pr2 := updateProgress pr1 ⟨none, some "Running compliance..."⟩
        let lg2 := lg1 ++ [(item.id, ItemStatus.checking)]
        match e.comp with
        | Except.error msg => itemError item msg items2 pr2 [pr1, pr2] lg2
        | Except.ok raw =>
          let complianceStatus := mapCompliance raw
          if cancelledAt sched (4 * i + 2) then itemCancelled items2 pr2 [pr1, pr2] lg2
          else
            -- Step 3: countdown, record
            let items3 := updateItemStatus items2 item.id ItemStatus.recording none
            let pr3 := updateProgress pr2 ⟨none, some "Recording..."⟩
            let pr3a := updateProgress pr3 ⟨none, some "Recording in 2..."⟩
            let pr3b := updateProgress pr3a ⟨none, some "Recording in 1..."⟩
            let lg3 := lg2 ++ [(item.id, ItemStatus.recording)]
            match e.record with
            | Except.error msg => itemError item msg items3 pr3b [pr1, pr2, pr3, pr3a, pr3b] lg3
            | Except.ok _ =>
              if cancelledAt sched (4 * i + 3) then
                itemCancelled items3 pr3b [pr1, pr2, pr3, pr3a, pr3b] lg3
              else
                -- Step 4: generate proof pack, mark complete
                let items4 := updateItemStatus items3 item.id ItemStatus.processing none
                let pr4 := updateProgress pr3b ⟨none, some "Generating proof pack..."⟩
                let lg4 := lg3 ++ [(item.id, ItemStatus.processing)]
                match e.proof with
                | Except.error msg =>
                    itemError item msg items4 pr4 [pr1, pr2, pr3, pr3a, pr3b, pr4] lg4
                | Except.ok pp =>
                    let items5 := updateItemStatus items4 item.id ItemStatus.complete none
                    let items6 := markComplete items5 item.id complianceStatus pp
                    { result := ⟨true, some complianceStatus, pp, none⟩
                      items := items6
                      progress := pr4
                      prLog := [pr1, pr2, pr3, pr3a, pr3b, pr4]
                      log := lg4 ++ [(item.id, ItemStatus.complete)] }

/-- The mutable run-scoped accumulators of `startProcessing`. -/
structure LoopState where
  items : List BatchItem
  progress : BulkProgress
  completedItems : List CompletedItemInfo
  errors : List BatchErrorInfo
  prLog : List BulkProgress
  log : List (Nat × ItemStatus)
deriving Repr

/-- The per-item loop of `startProcessing` (lines 365-407).  The loop
top polls cancellation at `4*i`; failed items with an error message
other than `"Cancelled"` are pushed to `errors` AND, with status
`error`, to `completedItems` (the push at lines 399-405).  The
processing-time fields come from `Date.now()` and are fixed to 0. -/
def runLoop (env : Nat → ItemEnv) (sched : Option Nat) :
    Nat → List BatchItem → LoopState → LoopState
  | _, [], ls => ls
  | i, item :: rest, ls =>
    if cancelledAt sched (4 * i) then ls
    else
      let pr1 : BulkProgress :=
        { ls.progress with
          currentItem := (i : Int)
          currentItemName := item.name
          currentItemStatus := "Loading..."
          completedItems := ls.completedItems
          errors := ls.errors }
      let step := processItem (env i) sched i item ls.items pr1
      let newCompleted :=
        if step.result.success then
          ls.completedItems ++
            [⟨item.id, item.name,
              CompletedStatus.ofCompliance
                (step.result.complianceStatus.getD ComplianceStatus.pass), 0⟩]
        else if step.result.error ≠ some "Cancelled" then
          ls.completedItems ++ [⟨item.id, item.name, CompletedStatus.error, 0⟩]
        else ls.completedItems
      let newErrors :=
        if step.result.success then ls.errors
        else if step.result.error ≠ some "Cancelled" then
          ls.errors ++ [⟨item.id, item.name, step.result.error.getD "Unknown error"⟩]
        else ls.errors
      runLoop env sched (i + 1) rest
        ⟨step.items, step.progress, newCompleted, newErrors,
         ls.prLog ++ pr1 :: step.prLog, ls.log ++ step.log⟩

/-- The observable outcome of one `startProcessing` call: final batch
state, final progress snapshot, every progress snapshot written during
the run (in order), and every item-status event (in order). -/
structure RunResult where
  state : BatchState
  progress : BulkProgress
  prLog : List BulkProgress
  log : List (Nat × ItemStatus)
deriving Repr

/-- `startProcessing` (lines 311-445).  `permission` models
`onPrepareRecording`; the final poll of the flag (line 412) happens
after every in-run poll site, modelled as site `4 * n`. -/
def startProcessing (st : BatchState) (pr : BulkProgress)
    (permission : Except String Unit) (env : Nat → ItemEnv)
    (sched : Option Nat) : RunResult :=
  if st.items.length = 0 ∨ st.isProcessing then ⟨st, pr, [], []⟩
  else
    let items := st.items
    let n := items.length
    let pr0 : BulkProgress :=
      { phase := Phase.preparing
        currentItem := 0
        totalItems := n
        currentItemName := ((items.head?).map BatchItem.name).getD ""
        currentItemStatus := "Preparing..."
        estimatedTimeRemaining := (n : Int) * SECONDS_PER_AD * 1000
        completedItems := []
        errors := [] }
    match permission with
    | Except.error _ =>
      let prErr :=
        { pr0 with
          phase := Phase.error
          currentItemStatus := "Failed to get screen capture permission" }
      ⟨{ st with isProcessing := false, currentIndex := -1 }, prErr, [pr0, prErr], []⟩
    | Except.ok _ =>
      let pr1 := { pr0 with phase := Phase.processing }
      let ls := runLoop env sched 0 items ⟨items, pr1, [], [], [pr0, pr1], []⟩
      let prFin :=
        if cancelledAt sched (4 * n) then
          { ls.progress with
            phase := Phase.cancelled
            completedItems := ls.completedItems
            errors := ls.errors }
        else
          { ls.progress with
            phase := Phase.complete
            currentItem := (n : Int)
            currentItemStatus := "Complete"
            estimatedTimeRemaining := 0
            completedItems := ls.completedItems
            errors := ls.errors }
      ⟨{ items := ls.items, isProcessing := false, currentIndex := -1 },
       prFin, ls.prLog ++ [prFin], ls.log⟩

/-! ## Derived descriptions of a cancellation-free run

These recursive functions restate what `processItem` / `runLoop` produce
on an item-by-item basis; the lemmas below prove the orchestrator equal
to them.  They are derived from the same source code, not from the
spec. -/

/-- The message of the first collaborator exception an item's pipeline
hits, if any (the pipeline stops at the first throw). -/
def itemThrow (e : ItemEnv) : Option String :=
  match e.load with
  | Except.error m => some m
  | Except.ok _ =>
    match e.ready with
    | Except.error m => some m
    | Except.ok _ =>
      match e.comp with
      | Except.error m => some m
      | Except.ok _ =>
        match e.record with
        | Except.error m => some m
        | Except.ok _ =>
          match e.proof with
          | Except.error m => some m
          | Except.ok _ => none

/-- The compliance status a non-throwing pipeline resolves (the mapped
read of `getComplianceResult`). -/
def envCompliance (e : ItemEnv) : ComplianceStatus :=
  match e.comp with
  | Except.ok raw => mapCompliance raw
  | Except.error _ => ComplianceStatus.warn

/-- The proof pack a non-throwing pipeline attaches. -/
def envProof (e : ItemEnv) : Option Nat :=
  match e.proof with
  | Except.ok pp => pp
  | Except.error _ => none

/-- Final form of one item after its pipeline ran to a terminal status
without cancellation: `error` with the first thrown message, or
`complete` with the resolved compliance status and proof pack. -/
def itemOutcome (e : ItemEnv) (it : BatchItem) : BatchItem :=
  match itemThrow e with
  | some m => { it with status := ItemStatus.error, error := some m }
  | none =>
    { it with
      status := ItemStatus.complete
      error := none
      complianceStatus := some (envCompliance e)
      proofPack := envProof e }

/-- Effect of one `processItem` call on the shared item list: the item
with the processed id is transformed, every other item is untouched. -/
def applyOutcome (e : ItemEnv) (tid : Nat) (items : List BatchItem) : List BatchItem :=
  items.map (fun it => if it.id = tid then itemOutcome e it else it)

/-- Item-list effect of the whole cancellation-free loop. -/
def loopItems (env : Nat → ItemEnv) : Nat → List BatchItem → List BatchItem → List BatchItem
  | _, [], items => items
  | i, it :: rest, items => loopItems env (i + 1) rest (applyOutcome (env i) it.id items)

/-- Final item list of a cancellation-free run, position by position. -/
def runOutcome (env : Nat → ItemEnv) : Nat → List BatchItem → List BatchItem
  | _, [] => []
  | i, it :: rest => itemOutcome (env i) it :: runOutcome env (i + 1) rest

/-- `completedItems` entries of a cancellation-free run.  Every
processed item contributes one entry — including failed ones, with
status `error` — except when the thrown message is literally
`"Cancelled"`, which the loop mistakes for a cancellation result. -/
def runCompleted (env : Nat → ItemEnv) : Nat → List BatchItem → List CompletedItemInfo
  | _, [] => []
  | i, it :: rest =>
    match itemThrow (env i) with
    | none =>
        ⟨it.id, it.name, CompletedStatus.ofCompliance (envCompliance (env i)), 0⟩
          :: runCompleted env (i + 1) rest
    | some m =>
        if m = "Cancelled" then runCompleted env (i + 1) rest
        else ⟨it.id, it.name, CompletedStatus.error, 0⟩ :: runCompleted env (i + 1) rest

/-- `errors` entries of a cancellation-free run: the failed items in
queue order with their messages (same `"Cancelled"` caveat). -/
def runErrors (env : Nat → ItemEnv) : Nat → List BatchItem → List BatchErrorInfo
  | _, [] => []
  | i, it :: rest =>
    match itemThrow (env i) with
    | none => runErrors env (i + 1) rest
    | some m =>
        if m = "Cancelled" then runErrors env (i + 1) rest
        else ⟨it.id, it.name, m⟩ :: runErrors env (i + 1) rest

/-! ## Concrete fixtures (used to evaluate the theorems on closed inputs) -/

/-- Collaborators that all succeed, with a passing compliance read and a
proof pack. -/
def okEnv : ItemEnv :=
  ⟨Except.ok (), Except.ok (), Except.ok (some (some RawCompliance.pass)),
   Except.ok (), Except.ok (some 5)⟩

/-- Collaborators whose load step throws `"boom"`. -/
def badEnv : ItemEnv :=
  ⟨Except.error "boom", Except.ok (), Except.ok none, Except.ok (), Except.ok none⟩

def itemA : BatchItem := ⟨1, "A", ItemStatus.pending, none, none, none⟩

def itemB : BatchItem := ⟨2, "B", ItemStatus.pending, none, none, none⟩

def idleProgress : BulkProgress := ⟨Phase.idle, -1, 0, "", "", 0, [], []⟩

/-- Item 0 succeeds, item 1 throws on load. -/
def mixedEnv : Nat → ItemEnv := fun i => if i = 1 then badEnv else okEnv

/-- A two-item run in which the second item's load step throws. -/
def failRun : RunResult :=
  startProcessing ⟨[itemA, itemB], false, -1⟩ idleProgress (Except.ok ()) mixedEnv none

/-- A two-item run in which every collaborator succeeds. -/
def okRun : RunResult :=
  startProcessing ⟨[itemA, itemB], false, -1⟩ idleProgress (Except.ok ()) (fun _ => okEnv) none

/-- A two-item run cancelled while the second item (index 1) is in its
checking phase (poll site `4*1+2`). -/
def cancelRun : RunResult :=
  startProcessing ⟨[itemA, itemB], false, -1⟩ idleProgress (Except.ok ())
    (fun _ => okEnv) (some 6)

/-! ## Recorder lemmas and claim C7 -/

theorem foldl_handleData_chunks (events : List (List Nat)) :
    ∀ s : RecState,
      (events.foldl handleData s).chunks
        = s.chunks ++ events.filter (fun d => d.length > 0) := by
  induction events with
  | nil => intro s; simp
  | cons e rest ih =>
    intro s
    by_cases h : e.length > 0
    · simp [handleData, h, ih, List.filter_cons]
    · simp [handleData, h, ih, List.filter_cons]

/-- C7: `stop` rejects with `"No data recorded"` exactly when no
non-empty chunk arrived between `start` and `stop` (zero-size chunks are
never buffered); otherwise it resolves with the concatenation of the
buffered chunks in arrival order; and `start` clears any chunks buffered
by a prior recording. -/
theorem recorder_stop_semantics (s0 : RecState) (events : List (List Nat)) :
    (startRecorder s0).chunks = []
    ∧ ((recordSession s0 events).1 = Except.error "No data recorded"
        ↔ ∀ d ∈ events, d.length = 0)
    ∧ ((¬ ∀ d ∈ events, d.length = 0) →
        (recordSession s0 events).1
          = Except.ok ((events.filter (fun d => d.length > 0)).flatten)) := by
  have hch : (events.foldl handleData (startRecorder s0)).chunks
      = events.filter (fun d => d.length > 0) := by
    rw [foldl_handleData_chunks]
    simp [startRecorder]
  have hiff : ((events.filter (fun d => d.length > 0)) = []
      ↔ ∀ d ∈ events, d.length = 0) := by
    rw [List.filter_eq_nil_iff]
    constructor
    · intro h d hd
      have h2 := h d hd
      simp only [decide_eq_true_eq] at h2
      omega
    · intro h d hd
      have h2 := h d hd
      simp only [decide_eq_true_eq]
      omega
  refine ⟨by simp [startRecorder], ?_, ?_⟩
  · unfold recordSession stopRecorder
    rw [hch]
    by_cases hnil : (events.filter (fun d => d.length > 0)) = []
    · rw [if_pos (by simp [hnil])]
      exact ⟨fun _ => hiff.mp hnil, fun _ => rfl⟩
    · rw [if_neg (by rw [List.length_eq_zero]; exact hnil)]
      constructor
      · intro h
        exact Except.noConfusion h
      · intro h
        exact absurd (hiff.mpr h) hnil
  · intro hne
    have hnil : (events.filter (fun d => d.length > 0)) ≠ [] :=
      fun h => hne (hiff.mp h)
    unfold recordSession stopRecorder
    rw [hch, if_neg (by rw [List.length_eq_zero]; exact hnil)]

/-- Closed-input evaluation of `recorder_stop_semantics`: a session that
received an empty, then two non-empty chunks resolves with their
concatenation. -/
theorem recorder_stop_semantics_witness :
    (startRecorder ⟨[[9]], true, false⟩).chunks = []
    ∧ ((recordSession ⟨[[9]], true, false⟩ [[], [1, 2], [3]]).1
          = Except.error "No data recorded"
        ↔ ∀ d ∈ [([] : List Nat), [1, 2], [3]], d.length = 0)
    ∧ ((¬ ∀ d ∈ [([] : List Nat), [1, 2], [3]], d.length = 0) →
        (recordSession ⟨[[9]], true, false⟩ [[], [1, 2], [3]]).1
          = Except.ok (((([] : List Nat) :: [[1, 2], [3]]).filter
              (fun d => d.length > 0)).flatten)) :=
  recorder_stop_semantics ⟨[[9]], true, false⟩ [[], [1, 2], [3]]

/-! ## Compositor lemmas and claim C6 -/

theorem drawFrame_invalid (vw vh : Int) (inp : TickInput) (s : CompositorState)
    (hrun : s.isRunning = true) (hinv : validTick inp = false) :
    drawFrame vw vh inp s = ⟨s, true, false, false⟩ := by
  cases hel : inp.element
  · simp [drawFrame, hrun, hel]
  · have hd : (dimOk inp.width && dimOk inp.height) = false := by
      have := hinv
      simp only [validTick, hel, Bool.true_and] at this
      exact this
    simp [drawFrame, hrun, hel, hd]

theorem runTicks_invalid (vw vh : Int) (s : CompositorState)
    (hrun : s.isRunning = true) :
    ∀ invalids : List TickInput, (∀ i ∈ invalids, validTick i = false) →
      runTicks vw vh s invalids = s := by
  intro invalids
  induction invalids with
  | nil => intro _; rfl
  | cons inp rest ih =>
    intro h
    have h0 : validTick inp = false := h inp (by simp)
    show runTicks vw vh (drawFrame vw vh inp s).state rest = s
    rw [drawFrame_invalid vw vh inp s hrun h0]
    exact ih (fun i hi => h i (by simp [hi]))

/-- C6: while the crop accessors report an absent element or a
non-positive/undefined dimension, each tick leaves the canvas and draw
count untouched and merely schedules the next tick; on the first tick
with a valid element and positive dimensions differing from the canvas
size, the canvas is resized to exactly those dimensions and a frame is
drawn. -/
theorem compositor_skip_and_resume (vw vh : Int) (s : CompositorState)
    (invalids : List TickInput) (inp : TickInput)
    (hrun : s.isRunning = true)
    (hinv : ∀ i ∈ invalids, validTick i = false)
    (hval : validTick inp = true)
    (hdiff : s.canvasWidth ≠ inp.width.getD 0 ∨ s.canvasHeight ≠ inp.height.getD 0)
    (hvw : vw ≠ 0) (hvh : vh ≠ 0) :
    runTicks vw vh s invalids = s
    ∧ (∀ i ∈ invalids, drawFrame vw vh i s = ⟨s, true, false, false⟩)
    ∧ (drawFrame vw vh inp s).resized = true
    ∧ (drawFrame vw vh inp s).state.canvasWidth = inp.width.getD 0
    ∧ (drawFrame vw vh inp s).state.canvasHeight = inp.height.getD 0
    ∧ (drawFrame vw vh inp s).drew = true
    ∧ (drawFrame vw vh inp s).state.drawCount = s.drawCount + 1
    ∧ runTicks vw vh s (invalids ++ [inp]) = (drawFrame vw vh inp s).state := by
  have hel : inp.element = true := by
    have := hval
    simp only [validTick, Bool.and_eq_true] at this
    exact this.1.1
  have hdims : (dimOk inp.width && dimOk inp.height) = true := by
    have := hval
    simp only [validTick, Bool.and_eq_true] at this
    simp [this.1.2, this.2]
  have hresize : (s.canvasWidth != inp.width.getD 0 || s.canvasHeight != inp.height.getD 0)
      = true := by
    rcases hdiff with h | h
    · simp [bne_iff_ne, h]
    · simp [bne_iff_ne, h]
  have hdrawn : (vw != 0 && vh != 0) = true := by
    simp [bne_iff_ne, hvw, hvh]
  have hmain : drawFrame vw vh inp s
      = ⟨⟨s.isRunning, inp.width.getD 0, inp.height.getD 0, s.drawCount + 1⟩,
         true, true, true⟩ := by
    simp only [drawFrame, hrun, hel, hdims, Bool.not_true, Bool.false_eq_true, if_false,
      Bool.not_false, if_true, hresize, hdrawn]
  have hskip := runTicks_invalid vw vh s hrun invalids hinv
  have hlast : runTicks vw vh s (invalids ++ [inp]) = (drawFrame vw vh inp s).state := by
    have hsplit : ∀ (l : List TickInput) (t : CompositorState), (∀ i ∈ l, validTick i = false) →
        t.isRunning = true → runTicks vw vh t (l ++ [inp]) = (drawFrame vw vh inp t).state := by
      intro l
      induction l with
      | nil => intro t _ _; rfl
      | cons x rest ih =>
        intro t hl ht
        show runTicks vw vh (drawFrame vw vh x t).state (rest ++ [inp])
            = (drawFrame vw vh inp t).state
        rw [drawFrame_invalid vw vh x t ht (hl x (by simp))]
        exact ih t (fun i hi => hl i (by simp [hi])) ht
    exact hsplit invalids s hinv hrun
  refine ⟨hskip, ?_, ?_, ?_, ?_, ?_, ?_, hlast⟩
  · intro i hi
    exact drawFrame_invalid vw vh i s hrun (hinv i hi)
  · rw [hmain]
  · rw [hmain]
  · rw [hmain]
  · rw [hmain]
  · rw [hmain]

/-- Closed-input evaluation of `compositor_skip_and_resume`: two invalid
ticks (absent element, then width 0), then a valid 320×50 reading on a
300×250 canvas. -/
theorem compositor_skip_and_resume_witness :
    runTicks 100 50 ⟨true, 300, 250, 0⟩
        [⟨false, some 300, some 250⟩, ⟨true, some 0, some 250⟩] = ⟨true, 300, 250, 0⟩
    ∧ (∀ i ∈ [(⟨false, some 300, some 250⟩ : TickInput), ⟨true, some 0, some 250⟩],
        drawFrame 100 50 i ⟨true, 300, 250, 0⟩ = ⟨⟨true, 300, 250, 0⟩, true, false, false⟩)
    ∧ (drawFrame 100 50 ⟨true, some 320, some 50⟩ ⟨true, 300, 250, 0⟩).resized = true
    ∧ (drawFrame 100 50 ⟨true, some 320, some 50⟩ ⟨true, 300, 250, 0⟩).state.canvasWidth
        = (some (320 : Int)).getD 0
    ∧ (drawFrame 100 50 ⟨true, some 320, some 50⟩ ⟨true, 300, 250, 0⟩).state.canvasHeight
        = (some (50 : Int)).getD 0
    ∧ (drawFrame 100 50 ⟨true, some 320, some 50⟩ ⟨true, 300, 250, 0⟩).drew = true
    ∧ (drawFrame 100 50 ⟨true, some 320, some 50⟩ ⟨true, 300, 250, 0⟩).state.drawCount = 0 + 1
    ∧ runTicks 100 50 ⟨true, 300, 250, 0⟩
        ([⟨false, some 300, some 250⟩, ⟨true, some 0, some 250⟩] ++ [⟨true, some 320, some 50⟩])
        = (drawFrame 100 50 ⟨true, some 320, some 50⟩ ⟨true, 300, 250, 0⟩).state :=
  compositor_skip_and_resume 100 50 ⟨true, 300, 250, 0⟩
    [⟨false, some 300, some 250⟩, ⟨true, some 0, some 250⟩] ⟨true, some 320, some 50⟩
    rfl (by decide) (by decide) (by decide) (by decide) (by decide)

/-! ## Claim C8: releasing a derived stream -/

/-- C8 counterexample: the cleanup returned by `requestScreenCapture`
for a cropped stream (`combinedCleanup`, recorder.ts lines 211-214)
stops the raw stream's tracks, so after release the raw stream is NOT
left live, contrary to the claim. -/
theorem release_keeps_raw_alive_counterexample :
    (combinedCleanup ⟨[true], true, true⟩).tickRunning = false
    ∧ (combinedCleanup ⟨[true], true, true⟩).rawTracksLive = [false]
    ∧ ¬ (combinedCleanup ⟨[true], true, true⟩).rawTracksLive = [true] := by
  decide

/-- C8 amended: the inner cleanup of `createCroppedStream` stops the
tick loop and detaches the video without touching raw tracks, but the
release function actually handed to callers of `requestScreenCapture`
additionally stops every raw-stream track. -/
theorem release_semantics_amended (s : CaptureState) :
    (croppedCleanup s).tickRunning = false
    ∧ (croppedCleanup s).videoAttached = false
    ∧ (croppedCleanup s).rawTracksLive = s.rawTracksLive
    ∧ (combinedCleanup s).tickRunning = false
    ∧ (combinedCleanup s).videoAttached = false
    ∧ ∀ t ∈ (combinedCleanup s).rawTracksLive, t = false := by
  refine ⟨rfl, rfl, rfl, rfl, rfl, ?_⟩
  intro t ht
  simp only [combinedCleanup, croppedCleanup, List.mem_map] at ht
  obtain ⟨_, _, h⟩ := ht
  exact h.symm

/-! ## Claim C10: the start guard -/

/-- C10: `startProcessing` on an empty queue or while a run is already
in progress returns immediately: state and progress are unchanged and
nothing is written or logged. -/
theorem startProcessing_guard (st : BatchState) (pr : BulkProgress)
    (permission : Except String Unit) (env : Nat → ItemEnv) (sched : Option Nat)
    (h : st.items.length = 0 ∨ st.isProcessing = true) :
    startProcessing st pr permission env sched = ⟨st, pr, [], []⟩ := by
  unfold startProcessing
  rcases h with h | h
  · simp [h]
  · simp [h]

/-- Closed-input evaluation of `startProcessing_guard` on a queue that
is already processing. -/
theorem startProcessing_guard_witness :
    startProcessing ⟨[itemA], true, 0⟩ idleProgress (Except.ok ()) (fun _ => okEnv) none
      = ⟨⟨[itemA], true, 0⟩, idleProgress, [], []⟩ :=
  startProcessing_guard ⟨[itemA], true, 0⟩ idleProgress (Except.ok ()) (fun _ => okEnv) none
    (Or.inr rfl)

/-! ## Claim C3: permission failure aborts before any item starts -/

/-- C3: when the one-time permission collaborator throws, the progress
phase goes `preparing` then `error` (the whole progress trace is exactly
those two snapshots), `isProcessing` ends false, no item-status event is
emitted, and the item list is returned exactly as it was (every item
keeps its `pending` status; none reaches `loading`). -/
theorem permission_failure_aborts (st : BatchState) (pr : BulkProgress)
    (env : Nat → ItemEnv) (sched : Option Nat) (msg : String)
    (hne : st.items.length ≠ 0) (hproc : st.isProcessing = false) :
    (startProcessing st pr (Except.error msg) env sched).progress.phase = Phase.error
    ∧ (startProcessing st pr (Except.error msg) env sched).state.isProcessing = false
    ∧ (startProcessing st pr (Except.error msg) env sched).state.items = st.items
    ∧ (startProcessing st pr (Except.error msg) env sched).log = []
    ∧ (startProcessing st pr (Except.error msg) env sched).prLog.map BulkProgress.phase
        = [Phase.preparing, Phase.error] := by
  unfold startProcessing
  simp [hne, hproc]

/-- Closed-input evaluation of `permission_failure_aborts` on a
two-item queue whose permission request is denied. -/
theorem permission_failure_aborts_witness :
    (startProcessing ⟨[itemA, itemB], false, -1⟩ idleProgress (Except.error "denied")
        (fun _ => okEnv) none).progress.phase = Phase.error
    ∧ (startProcessing ⟨[itemA, itemB], false, -1⟩ idleProgress (Except.error "denied")
        (fun _ => okEnv) none).state.isProcessing = false
    ∧ (startProcessing ⟨[itemA, itemB], false, -1⟩ idleProgress (Except.error "denied")
        (fun _ => okEnv) none).state.items = [itemA, itemB]
    ∧ (startProcessing ⟨[itemA, itemB], false, -1⟩ idleProgress (Except.error "denied")
        (fun _ => okEnv) none).log = []
    ∧ (startProcessing ⟨[itemA, itemB], false, -1⟩ idleProgress (Except.error "denied")
        (fun _ => okEnv) none).prLog.map BulkProgress.phase
        = [Phase.preparing, Phase.error] :=
  permission_failure_aborts ⟨[itemA, itemB], false, -1⟩ idleProgress (fun _ => okEnv) none
    "denied" (by decide) rfl

/-! ## Characterization of `processItem` -/

theorem itemOutcome_id (e : ItemEnv) (it : BatchItem) : (itemOutcome e it).id = it.id := by
  unfold itemOutcome
  cases itemThrow e <;> rfl

/-- Without cancellation, `processItem` transforms exactly the entries
of the shared item list that carry the processed item's id, by the
item's outcome. -/
theorem processItem_items_none (e : ItemEnv) (i : Nat) (item : BatchItem)
    (items0 : List BatchItem) (pr0 : BulkProgress) :
    (processItem e none i item items0 pr0).items = applyOutcome e item.id items0 := by
  cases hl : e.load with
  | error m =>
    simp only [processItem, hl, itemError, applyOutcome, itemOutcome, itemThrow,
      updateItemStatus, List.map_map]
    refine List.map_congr_left fun it _ => ?_
    by_cases h : it.id = item.id <;> simp [h, Function.comp]
  | ok u =>
    cases hr : e.ready with
    | error m =>
      simp only [processItem, hl, hr, itemError, applyOutcome, itemOutcome, itemThrow,
        updateItemStatus, List.map_map]
      refine List.map_congr_left fun it _ => ?_
      by_cases h : it.id = item.id <;> simp [h, Function.comp]
    | ok v =>
      cases hc : e.comp with
      | error m =>
        simp only [processItem, hl, hr, hc, cancelledAt, itemError, applyOutcome, itemOutcome,
          itemThrow, updateItemStatus, List.map_map, Bool.false_eq_true, if_false]
        refine List.map_congr_left fun it _ => ?_
        by_cases h : it.id = item.id <;> simp [h, Function.comp]
      | ok raw =>
        cases hrec : e.record with
        | error m =>
          simp only [processItem, hl, hr, hc, hrec, cancelledAt, itemError, applyOutcome,
            itemOutcome, itemThrow, updateItemStatus, List.map_map, Bool.false_eq_true, if_false]
          refine List.map_congr_left fun it _ => ?_
          by_cases h : it.id = item.id <;> simp [h, Function.comp]
        | ok w =>
          cases hp : e.proof with
          | error m =>
            simp only [processItem, hl, hr, hc, hrec, hp, cancelledAt, itemError, applyOutcome,
              itemOutcome, itemThrow, updateItemStatus, List.map_map, Bool.false_eq_true, if_false]
            refine List.map_congr_left fun it _ => ?_
            by_cases h : it.id = item.id <;> simp [h, Function.comp]
          | ok pp =>
            simp only [processItem, hl, hr, hc, hrec, hp, cancelledAt, applyOutcome,
              itemOutcome, itemThrow, envCompliance, envProof, updateItemStatus, markComplete,
              List.map_map, Bool.false_eq_true, if_false]
            refine List.map_congr_left fun it _ => ?_
            by_cases h : it.id = item.id <;> simp [h, Function.comp]

/-- Without cancellation, the value `processItem` resolves with is
determined by the first collaborator throw (if any), the mapped
compliance read and the proof pack. -/
theorem processItem_result_none (e : ItemEnv) (i : Nat) (item : BatchItem)
    (items0 : List BatchItem) (pr0 : BulkProgress) :
    (processItem e none i item items0 pr0).result =
      (match itemThrow e with
       | some m => ⟨false, none, none, some m⟩
       | none => ⟨true, some (envCompliance e), envProof e, none⟩) := by
  cases hl : e.load with
  | error m => simp [processItem, hl, itemError, itemThrow]
  | ok u =>
    cases hr : e.ready with
    | error m => simp [processItem, hl, hr, itemError, itemThrow]
    | ok v =>
      cases hc : e.comp with
      | error m => simp [processItem, hl, hr, hc, cancelledAt, itemError, itemThrow]
      | ok raw =>
        cases hrec : e.record with
        | error m => simp [processItem, hl, hr, hc, hrec, cancelledAt, itemError, itemThrow]
        | ok w =>
          cases hp : e.proof with
          | error m => simp [processItem, hl, hr, hc, hrec, hp, cancelledAt, itemError, itemThrow]
          | ok pp =>
            simp [processItem, hl, hr, hc, hrec, hp, cancelledAt, itemThrow,
              envCompliance, envProof]

/-- Every item-status event `processItem` emits carries the processed
item's id. -/
theorem processItem_log_ids (e : ItemEnv) (sched : Option Nat) (i : Nat) (item : BatchItem)
    (items0 : List BatchItem) (pr0 : BulkProgress) :
    ∀ ev ∈ (processItem e sched i item items0 pr0).log, ev.1 = item.id := by
  cases hl : e.load with
  | error m =>
    intro ev hev
    simp only [processItem, hl, itemError, List.mem_append, List.mem_cons,
      List.mem_singleton, List.not_mem_nil, or_false] at hev
    rcases hev with h | h <;> (subst h; rfl)
  | ok u =>
    cases hr : e.ready with
    | error m =>
      intro ev hev
      simp only [processItem, hl, hr, itemError, List.mem_append, List.mem_cons,
        List.mem_singleton, List.not_mem_nil, or_false] at hev
      rcases hev with h | h <;> (subst h; rfl)
    | ok v =>
      cases hca : cancelledAt sched (4 * i + 1) with
      | true =>
        intro ev hev
        simp only [processItem, hl, hr, hca, if_true, itemCancelled, List.mem_singleton] at hev
        subst hev; rfl
      | false =>
        cases hc : e.comp with
        | error m =>
          intro ev hev
          simp only [processItem, hl, hr, hca, hc, Bool.false_eq_true, if_false, itemError,
            List.mem_append, List.mem_cons, List.mem_singleton, List.not_mem_nil,
            or_false] at hev
          rcases hev with (h | h) | h <;> (subst h; rfl)
        | ok raw =>
          cases hcb : cancelledAt sched (4 * i + 2) with
          | true =>
            intro ev hev
            simp only [processItem, hl, hr, hca, hc, hcb, Bool.false_eq_true, if_false, if_true,
              itemCancelled, List.mem_append, List.mem_cons, List.mem_singleton,
              List.not_mem_nil, or_false] at hev
            rcases hev with h | h <;> (subst h; rfl)
          | false =>
            cases hrec : e.record with
            | error m =>
              intro ev hev
              simp only [processItem, hl, hr, hca, hc, hcb, hrec, Bool.false_eq_true, if_false,
                itemError, List.mem_append, List.mem_cons, List.mem_singleton,
                List.not_mem_nil, or_false] at hev
              rcases hev with ((h | h) | h) | h <;> (subst h; rfl)
            | ok w =>
              cases hcc : cancelledAt sched (4 * i + 3) with
              | true =>
                intro ev hev
                simp only [processItem, hl, hr, hca, hc, hcb, hrec, hcc, Bool.false_eq_true,
                  if_false, if_true, itemCancelled, List.mem_append, List.mem_cons,
                  List.mem_singleton, List.not_mem_nil, or_false] at hev
                rcases hev with (h | h) | h <;> (subst h; rfl)
              | false =>
                cases hp : e.proof with
                | error m =>
                  intro ev hev
                  simp only [processItem, hl, hr, hca, hc, hcb, hrec, hcc, hp,
                    Bool.false_eq_true, if_false, itemError, List.mem_append, List.mem_cons,
                    List.mem_singleton, List.not_mem_nil, or_false] at hev
                  rcases hev with (((h | h) | h) | h) | h <;> (subst h; rfl)
                | ok pp =>
                  intro ev hev
                  simp only [processItem, hl, hr, hca, hc, hcb, hrec, hcc, hp,
                    Bool.false_eq_true, if_false, List.mem_append, List.mem_cons,
                    List.mem_singleton, List.not_mem_nil, or_false] at hev
                  rcases hev with (((h | h) | h) | h) | h <;> (subst h; rfl)

/-- A status-only `updateProgress` call (`currentItem` absent) leaves
`estimatedTimeRemaining` untouched — the only kind of call `processItem`
ever makes. -/
theorem updateProgress_status_only (prev : BulkProgress) (s : Option String) :
    (updateProgress prev ⟨none, s⟩).estimatedTimeRemaining = prev.estimatedTimeRemaining := by
  simp [updateProgress]

/-- `processItem` never changes `estimatedTimeRemaining`: neither in its
final progress snapshot nor in any intermediate snapshot it writes. -/
theorem processItem_eta (e : ItemEnv) (sched : Option Nat) (i : Nat) (item : BatchItem)
    (items0 : List BatchItem) (pr0 : BulkProgress) :
    (processItem e sched i item items0 pr0).progress.estimatedTimeRemaining
        = pr0.estimatedTimeRemaining
    ∧ ∀ p ∈ (processItem e sched i item items0 pr0).prLog,
        p.estimatedTimeRemaining = pr0.estimatedTimeRemaining := by
  cases hl : e.load with
  | error m => simp [processItem, hl, itemError, updateProgress]
  | ok u =>
    cases hr : e.ready with
    | error m => simp [processItem, hl, hr, itemError, updateProgress]
    | ok v =>
      cases hca : cancelledAt sched (4 * i + 1) with
      | true => simp [processItem, hl, hr, hca, itemCancelled, updateProgress]
      | false =>
        cases hc : e.comp with
        | error m => simp [processItem, hl, hr, hca, hc, itemError, updateProgress]
        | ok raw =>
          cases hcb : cancelledAt sched (4 * i + 2) with
          | true => simp [processItem, hl, hr, hca, hc, hcb, itemCancelled, updateProgress]
          | false =>
            cases hrec : e.record with
            | error m =>
              simp [processItem, hl, hr, hca, hc, hcb, hrec, itemError, updateProgress]
            | ok w =>
              cases hcc : cancelledAt sched (4 * i + 3) with
              | true =>
                simp [processItem, hl, hr, hca, hc, hcb, hrec, hcc, itemCancelled,
                  updateProgress]
              | false =>
                cases hp : e.proof with
                | error m =>
                  simp [processItem, hl, hr, hca, hc, hcb, hrec, hcc, hp, itemError,
                    updateProgress]
                | ok pp =>
                  simp [processItem, hl, hr, hca, hc, hcb, hrec, hcc, hp, updateProgress]

/-! ## Characterization of `runLoop` -/

/-- Without cancellation, the loop's effect on the item list is the
sequential application of each item's outcome. -/
theorem runLoop_items_none (env : Nat → ItemEnv) (rest : List BatchItem) :
    ∀ (i : Nat) (ls : LoopState),
      (runLoop env none i rest ls).items = loopItems env i rest ls.items := by
  induction rest with
  | nil =>
    intro i ls
    rfl
  | cons item rest ih =>
    intro i ls
    show (runLoop env none (i + 1) rest _).items = _
    rw [ih]
    show loopItems env (i + 1) rest
        (processItem (env i) none i item ls.items _).items = _
    rw [processItem_items_none]
    rfl

/-- Without cancellation, the loop appends exactly the derived
completed-item and error summaries. -/
theorem runLoop_lists_none (env : Nat → ItemEnv) (rest : List BatchItem) :
    ∀ (i : Nat) (ls : LoopState),
      (runLoop env none i rest ls).completedItems
          = ls.completedItems ++ runCompleted env i rest
      ∧ (runLoop env none i rest ls).errors = ls.errors ++ runErrors env i rest := by
  induction rest with
  | nil =>
    intro i ls
    exact ⟨by simp [runLoop, runCompleted], by simp [runLoop, runErrors]⟩
  | cons item rest ih =>
    intro i ls
    cases ht : itemThrow (env i) with
    | none =>
      have hres2 : ∀ pr0 : BulkProgress,
          (processItem (env i) none i item ls.items pr0).result
            = ⟨true, some (envCompliance (env i)), envProof (env i), none⟩ := by
        intro pr0
        rw [processItem_result_none, ht]
      show (runLoop env none (i + 1) rest _).completedItems = _
          ∧ (runLoop env none (i + 1) rest _).errors = _
      refine ⟨?_, ?_⟩
      · rw [(ih (i + 1) _).1]
        simp [hres2, runCompleted, ht, List.append_assoc, List.singleton_append]
      · rw [(ih (i + 1) _).2]
        simp [hres2, runErrors, ht]
    | some m =>
      have hres2 : ∀ pr0 : BulkProgress,
          (processItem (env i) none i item ls.items pr0).result
            = ⟨false, none, none, some m⟩ := by
        intro pr0
        rw [processItem_result_none, ht]
      by_cases hm : m = "Cancelled"
      · subst hm
        show (runLoop env none (i + 1) rest _).completedItems = _
            ∧ (runLoop env none (i + 1) rest _).errors = _
        refine ⟨?_, ?_⟩
        · rw [(ih (i + 1) _).1]
          simp [hres2, runCompleted, ht]
        · rw [(ih (i + 1) _).2]
          simp [hres2, runErrors, ht]
      · show (runLoop env none (i + 1) rest _).completedItems = _
            ∧ (runLoop env none (i + 1) rest _).errors = _
        refine ⟨?_, ?_⟩
        · rw [(ih (i + 1) _).1]
          simp [hres2, runCompleted, ht, hm, List.append_assoc, List.singleton_append]
        · rw [(ih (i + 1) _).2]
          simp [hres2, runErrors, ht, hm, List.append_assoc, List.singleton_append]

/-! ## List bookkeeping for id-guarded maps -/

/-- A by-id update touches nothing in a list that does not contain the
id. -/
theorem map_guard_id (tid : Nat) (f : BatchItem → BatchItem) (l : List BatchItem)
    (h : ∀ x ∈ l, x.id ≠ tid) :
    l.map (fun it => if it.id = tid then f it else it) = l := by
  induction l with
  | nil => rfl
  | cons x rest ih =>
    simp only [List.map_cons, if_neg (h x (by simp))]
    rw [ih (fun y hy => h y (by simp [hy]))]

/-- In a list with unique ids, no element outside the distinguished
middle position carries its id. -/
theorem nodup_middle_ne (a : BatchItem) (l1 l2 : List BatchItem)
    (h : ((l1 ++ a :: l2).map BatchItem.id).Nodup) :
    ∀ x ∈ l1 ++ l2, x.id ≠ a.id := by
  intro x hx heq
  rw [List.map_append, List.map_cons] at h
  rcases List.nodup_append.mp h with ⟨h1, h2, hdisj⟩
  rcases List.nodup_cons.mp h2 with ⟨hnotin, _⟩
  rcases List.mem_append.mp hx with hx | hx
  · have h3 := hdisj (List.mem_map.mpr ⟨x, hx, rfl⟩)
    rw [heq] at h3
    exact h3 (List.mem_cons_self _ _)
  · have h3 : x.id ∈ l2.map BatchItem.id := List.mem_map.mpr ⟨x, hx, rfl⟩
    rw [heq] at h3
    exact hnotin h3

theorem runOutcome_ids (env : Nat → ItemEnv) :
    ∀ (i : Nat) (l : List BatchItem),
      (runOutcome env i l).map BatchItem.id = l.map BatchItem.id := by
  intro i l
  induction l generalizing i with
  | nil => rfl
  | cons it rest ih => simp [runOutcome, itemOutcome_id, ih]

/-- Updating by the id of the distinguished middle element only rewrites
that element, when the id occurs nowhere else. -/
theorem applyOutcome_middle (e : ItemEnv) (done after : List BatchItem) (it : BatchItem)
    (hdone : ∀ x ∈ done, x.id ≠ it.id) (hafter : ∀ x ∈ after, x.id ≠ it.id) :
    applyOutcome e it.id (done ++ it :: after) = done ++ itemOutcome e it :: after := by
  unfold applyOutcome
  rw [List.map_append, map_guard_id it.id _ done hdone]
  simp [List.map_cons, map_guard_id it.id _ after hafter]

/-- The cancellation-free loop processes every remaining item in order:
with `done` already-final items in front and `after` untouched items
behind, it rewrites exactly the middle block by each item's outcome. -/
theorem loopItems_eq_runOutcome (env : Nat → ItemEnv) :
    ∀ (rest done after : List BatchItem) (i : Nat),
      ((done ++ rest ++ after).map BatchItem.id).Nodup →
      loopItems env i rest (done ++ rest ++ after) = done ++ runOutcome env i rest ++ after := by
  intro rest
  induction rest with
  | nil =>
    intro done after i _
    simp [loopItems, runOutcome]
  | cons it rest ih =>
    intro done after i h
    have h2 := h
    rw [show done ++ (it :: rest) ++ after = done ++ it :: (rest ++ after) by simp] at h2
    have hmem := nodup_middle_ne it done (rest ++ after) h2
    have hdone : ∀ x ∈ done, x.id ≠ it.id := fun x hx => hmem x (by simp [hx])
    have hafter2 : ∀ x ∈ rest ++ after, x.id ≠ it.id := fun x hx => hmem x (by simp [hx])
    show loopItems env (i + 1) rest (applyOutcome (env i) it.id (done ++ (it :: rest) ++ after))
        = done ++ (itemOutcome (env i) it :: runOutcome env (i + 1) rest) ++ after
    rw [show done ++ (it :: rest) ++ after = done ++ it :: (rest ++ after) by simp]
    rw [applyOutcome_middle (env i) done (rest ++ after) it hdone hafter2]
    rw [show done ++ itemOutcome (env i) it :: (rest ++ after)
        = (done ++ [itemOutcome (env i) it]) ++ rest ++ after by simp]
    rw [ih (done ++ [itemOutcome (env i) it]) after (i + 1) ?hnd]
    · simp
    case hnd =>
      have hids : ((done ++ [itemOutcome (env i) it]) ++ rest ++ after).map BatchItem.id
          = (done ++ (it :: rest) ++ after).map BatchItem.id := by
        simp [itemOutcome_id]
      rw [hids]
      exact h

theorem runOutcome_getElem (env : Nat → ItemEnv) :
    ∀ (l : List BatchItem) (i j : Nat),
      (runOutcome env i l)[j]? = (l[j]?).map (fun it => itemOutcome (env (i + j)) it) := by
  intro l
  induction l with
  | nil =>
    intro i j
    simp [runOutcome]
  | cons it rest ih =>
    intro i j
    cases j with
    | zero => simp [runOutcome]
    | succ j =>
      simp only [runOutcome, List.getElem?_cons_succ, ih (i + 1) j]
      rw [show i + 1 + j = i + (j + 1) by omega]

/-! ## Claim C1: item-level exceptions are caught and the run continues -/

/-- C1: in a cancellation-free run, every queued item is processed in
order: the final item list is exactly `runOutcome`; an item whose
pipeline throws with message `m` ends with status `error` and error
field `m` while every other item still receives its own outcome (no
exception aborts the loop), and the run still finishes with phase
`complete`. -/
theorem item_exceptions_are_local (st : BatchState) (pr : BulkProgress) (env : Nat → ItemEnv)
    (hne : st.items.length ≠ 0) (hproc : st.isProcessing = false)
    (hids : (st.items.map BatchItem.id).Nodup) :
    (startProcessing st pr (Except.ok ()) env none).state.items = runOutcome env 0 st.items
    ∧ (startProcessing st pr (Except.ok ()) env none).progress.phase = Phase.complete
    ∧ (∀ j : Nat, (runOutcome env 0 st.items)[j]?
        = (st.items[j]?).map (fun it => itemOutcome (env j) it))
    ∧ (∀ (e : ItemEnv) (it : BatchItem) (m : String), itemThrow e = some m →
        itemOutcome e it = { it with status := ItemStatus.error, error := some m }) := by
  refine ⟨?_, ?_, ?_, ?_⟩
  · unfold startProcessing
    simp only [hproc, hne, Bool.false_eq_true, or_self, if_false, false_or, if_neg]
    rw [runLoop_items_none]
    have hl := loopItems_eq_runOutcome env st.items [] [] 0 (by simpa using hids)
    simpa using hl
  · unfold startProcessing
    simp [hproc, hne, cancelledAt]
  · intro j
    simpa using runOutcome_getElem env st.items 0 j
  · intro e it m hm
    unfold itemOutcome
    rw [hm]

/-- Closed-input evaluation of `item_exceptions_are_local`: a two-item
run whose second item throws `"boom"` on load. -/
theorem item_exceptions_are_local_witness :
    failRun.state.items = runOutcome mixedEnv 0 [itemA, itemB]
    ∧ failRun.progress.phase = Phase.complete
    ∧ (∀ j : Nat, (runOutcome mixedEnv 0 [itemA, itemB])[j]?
        = ([itemA, itemB][j]?).map (fun it => itemOutcome (mixedEnv j) it))
    ∧ (∀ (e : ItemEnv) (it : BatchItem) (m : String), itemThrow e = some m →
        itemOutcome e it = { it with status := ItemStatus.error, error := some m }) :=
  item_exceptions_are_local ⟨[itemA, itemB], false, -1⟩ idleProgress mixedEnv
    (by decide) rfl (by decide)

/-! ## Claim C2: aggregation lists at phase `complete` -/

/-- C2 counterexample: in a completed run whose second item failed with
`"boom"`, the failed item DOES appear in `completedItems` (with status
`error`), because the loop pushes failed items to both lists
(use-bulk-processor.ts lines 399-405).  The claim's assertion that a
failed item never appears in `completedItems` is therefore false. -/
theorem failed_item_in_completed_counterexample :
    failRun.progress.phase = Phase.complete
    ∧ failRun.progress.errors = [⟨2, "B", "boom"⟩]
    ∧ failRun.progress.completedItems
        = [⟨1, "A", CompletedStatus.pass, 0⟩, ⟨2, "B", CompletedStatus.error, 0⟩]
    ∧ ¬ (∀ c ∈ failRun.progress.completedItems, c.id ≠ 2) := by
  refine ⟨rfl, rfl, rfl, ?_⟩
  intro h
  exact h ⟨2, "B", CompletedStatus.error, 0⟩ (by decide) rfl

/-- C2 amended: when a run finishes with phase `complete`, a failed item
appears in `errors` with its message and ALSO appears in
`completedItems`, with status `error`; `completedItems` holds one entry
per processed item in queue order — the compliance status for
successes, `error` for failures (items whose thrown message is literally
`"Cancelled"` are skipped by the push guard). -/
theorem aggregation_lists_amended (st : BatchState) (pr : BulkProgress) (env : Nat → ItemEnv)
    (hne : st.items.length ≠ 0) (hproc : st.isProcessing = false) :
    (startProcessing st pr (Except.ok ()) env none).progress.completedItems
        = runCompleted env 0 st.items
    ∧ (startProcessing st pr (Except.ok ()) env none).progress.errors
        = runErrors env 0 st.items
    ∧ (startProcessing st pr (Except.ok ()) env none).progress.phase = Phase.complete := by
  refine ⟨?_, ?_, ?_⟩
  · unfold startProcessing
    simp only [hproc, hne, Bool.false_eq_true, or_self, if_false, false_or, if_neg]
    simp only [cancelledAt, Bool.false_eq_true, if_false]
    rw [(runLoop_lists_none env st.items 0 _).1]
    simp
  · unfold startProcessing
    simp only [hproc, hne, Bool.false_eq_true, or_self, if_false, false_or, if_neg]
    simp only [cancelledAt, Bool.false_eq_true, if_false]
    rw [(runLoop_lists_none env st.items 0 _).2]
    simp
  · unfold startProcessing
    simp [hproc, hne, cancelledAt]

/-- Closed-input evaluation of `aggregation_lists_amended` on the
two-item run with one failure. -/
theorem aggregation_lists_amended_witness :
    failRun.progress.completedItems = runCompleted mixedEnv 0 [itemA, itemB]
    ∧ failRun.progress.errors = runErrors mixedEnv 0 [itemA, itemB]
    ∧ failRun.progress.phase = Phase.complete :=
  aggregation_lists_amended ⟨[itemA, itemB], false, -1⟩ idleProgress mixedEnv
    (by decide) rfl

/-! ## Claim C9: the ETA field -/

/-- The loop never changes `estimatedTimeRemaining`: its own progress
writes copy it unchanged (they bypass the recompute in
`updateProgress`), and `processItem` only makes status-only updates. -/
theorem runLoop_eta (env : Nat → ItemEnv) (sched : Option Nat) (rest : List BatchItem) :
    ∀ (i : Nat) (ls : LoopState) (E : Int),
      ls.progress.estimatedTimeRemaining = E →
      (∀ p ∈ ls.prLog, p.estimatedTimeRemaining = E) →
      (runLoop env sched i rest ls).progress.estimatedTimeRemaining = E
      ∧ ∀ p ∈ (runLoop env sched i rest ls).prLog, p.estimatedTimeRemaining = E := by
  induction rest with
  | nil =>
    intro i ls E h1 h2
    exact ⟨h1, h2⟩
  | cons item rest ih =>
    intro i ls E h1 h2
    cases hc : cancelledAt sched (4 * i) with
    | true =>
      simp only [runLoop, hc, if_true]
      exact ⟨h1, h2⟩
    | false =>
      simp only [runLoop, hc, Bool.false_eq_true, if_false]
      apply ih
      · rw [(processItem_eta (env i) sched i item ls.items _).1]
        exact h1
      · intro p hp
        simp only [List.mem_append, List.mem_cons] at hp
        rcases hp with hp | hp | hp
        · exact h2 p hp
        · subst hp
          exact h1
        · rw [(processItem_eta (env i) sched i item ls.items _).2 p hp]
          exact h1

/-- C9 counterexample: in the all-successful two-item run, the progress
write that advances `currentItem` from 0 to 1 (trace entry 9, written by
the loop body, which bypasses `updateProgress`) still carries
`estimatedTimeRemaining = 16000` — not `(totalItems − currentItem − 1) ×
8000 = 0`, nor `(totalItems − currentItem) × 8000 = 8000`.  The ETA is
not recomputed on index advance. -/
theorem eta_on_advance_counterexample :
    ((okRun.prLog[9]?).map (fun p => (p.currentItem, p.estimatedTimeRemaining))
        = some (1, 16000))
    ∧ ((okRun.prLog[8]?).map (fun p => p.currentItem) = some 0)
    ∧ okRun.progress.totalItems = 2
    ∧ (16000 : Int) ≠ ((2 : Int) - 1 - 1) * SECONDS_PER_AD * 1000
    ∧ (16000 : Int) ≠ ((2 : Int) - 1) * SECONDS_PER_AD * 1000 := by
  refine ⟨rfl, rfl, rfl, by decide, by decide⟩

/-- C9 amended: the recompute formula `(totalItems − currentItem − 1) ×
8000` exists in `updateProgress` and fires whenever an update carries a
`currentItem`, but no update made during a run ever does: every progress
snapshot written before the final one keeps the run-start value
`totalItems × 8000`, and the final snapshot sets the ETA to 0.  Measured
durations are never involved. -/
theorem eta_is_stale_amended (st : BatchState) (pr : BulkProgress) (env : Nat → ItemEnv)
    (hne : st.items.length ≠ 0) (hproc : st.isProcessing = false) :
    (∀ (q : BulkProgress) (u : ProgressUpdates) (ci : Int), u.currentItem = some ci →
        (updateProgress q u).estimatedTimeRemaining
          = ((q.totalItems : Int) - ci - 1) * SECONDS_PER_AD * 1000)
    ∧ (∀ q ∈ (startProcessing st pr (Except.ok ()) env none).prLog.dropLast,
        q.estimatedTimeRemaining = (st.items.length : Int) * SECONDS_PER_AD * 1000)
    ∧ (startProcessing st pr (Except.ok ()) env none).progress.estimatedTimeRemaining = 0 := by
  refine ⟨?_, ?_, ?_⟩
  · intro q u ci hci
    simp [updateProgress, hci]
  · unfold startProcessing
    simp only [hproc, hne, Bool.false_eq_true, or_self, if_false, false_or, if_neg]
    simp only [cancelledAt, Bool.false_eq_true, if_false]
    rw [List.dropLast_concat]
    intro q hq
    refine ((runLoop_eta env none st.items 0 _ _ rfl ?_).2 q hq)
    intro p hp
    simp only [List.mem_cons, List.not_mem_nil, or_false] at hp
    rcases hp with hp | hp <;> (subst hp; rfl)
  · unfold startProcessing
    simp [hproc, hne, cancelledAt]

/-- Closed-input evaluation of `eta_is_stale_amended` on the
all-successful two-item run. -/
theorem eta_is_stale_amended_witness :
    (∀ (q : BulkProgress) (u : ProgressUpdates) (ci : Int), u.currentItem = some ci →
        (updateProgress q u).estimatedTimeRemaining
          = ((q.totalItems : Int) - ci - 1) * SECONDS_PER_AD * 1000)
    ∧ (∀ q ∈ okRun.prLog.dropLast,
        q.estimatedTimeRemaining = (([itemA, itemB].length : Int)) * SECONDS_PER_AD * 1000)
    ∧ okRun.progress.estimatedTimeRemaining = 0 :=
  eta_is_stale_amended ⟨[itemA, itemB], false, -1⟩ idleProgress (fun _ => okEnv)
    (by decide) rfl

/-! ## Claim C4: compliance mapping on a non-throwing pipeline -/

/-- C4: when every pipeline step succeeds (and no cancellation fires),
`processItem` resolves successfully, the item ends `complete` with the
mapped compliance status attached, and the mapping sends `pass` to
`pass`, `fail` to `fail`, and everything else (`warn`, `pending`, a null
status, or an absent result object) to `warn` — the narrowed type
`ComplianceStatus` has no `pending` at all. -/
theorem completed_item_compliance (e : ItemEnv) (i : Nat) (item : BatchItem)
    (items0 : List BatchItem) (pr0 : BulkProgress)
    (raw : Option (Option RawCompliance)) (pp : Option Nat)
    (hl : e.load = Except.ok ()) (hr : e.ready = Except.ok ())
    (hc : e.comp = Except.ok raw) (hrec : e.record = Except.ok ())
    (hp : e.proof = Except.ok pp) :
    (processItem e none i item items0 pr0).result.success = true
    ∧ (processItem e none i item items0 pr0).result.complianceStatus
        = some (mapCompliance raw)
    ∧ (processItem e none i item items0 pr0).items
        = items0.map (fun it =>
            if it.id = item.id then
              { it with
                status := ItemStatus.complete
                error := none
                complianceStatus := some (mapCompliance raw)
                proofPack := pp }
            else it)
    ∧ mapCompliance (some (some RawCompliance.pass)) = ComplianceStatus.pass
    ∧ mapCompliance (some (some RawCompliance.fail)) = ComplianceStatus.fail
    ∧ (∀ r : Option (Option RawCompliance),
        r ≠ some (some RawCompliance.pass) → r ≠ some (some RawCompliance.fail) →
        mapCompliance r = ComplianceStatus.warn) := by
  have hthrow : itemThrow e = none := by
    simp [itemThrow, hl, hr, hc, hrec, hp]
  refine ⟨?_, ?_, ?_, rfl, rfl, ?_⟩
  · rw [processItem_result_none, hthrow]
  · rw [processItem_result_none, hthrow]
    simp [envCompliance, hc]
  · rw [processItem_items_none]
    unfold applyOutcome itemOutcome
    rw [hthrow]
    refine List.map_congr_left fun it _ => ?_
    by_cases h : it.id = item.id <;> simp [h, envCompliance, envProof, hc, hp]
  · intro r h1 h2
    match r with
    | none => rfl
    | some none => rfl
    | some (some RawCompliance.pass) => exact absurd rfl h1
    | some (some RawCompliance.fail) => exact absurd rfl h2
    | some (some RawCompliance.warn) => rfl
    | some (some RawCompliance.pending) => rfl

/-- Closed-input evaluation of `completed_item_compliance` on an
environment whose compliance read is `pending` (mapped to `warn`). -/
theorem completed_item_compliance_witness :
    (processItem ⟨Except.ok (), Except.ok (), Except.ok (some (some RawCompliance.pending)),
        Except.ok (), Except.ok (some 7)⟩ none 0 itemA [itemA] idleProgress).result.success
        = true
    ∧ (processItem ⟨Except.ok (), Except.ok (), Except.ok (some (some RawCompliance.pending)),
        Except.ok (), Except.ok (some 7)⟩ none 0 itemA [itemA] idleProgress).result.complianceStatus
        = some (mapCompliance (some (some RawCompliance.pending)))
    ∧ (processItem ⟨Except.ok (), Except.ok (), Except.ok (some (some RawCompliance.pending)),
        Except.ok (), Except.ok (some 7)⟩ none 0 itemA [itemA] idleProgress).items
        = [itemA].map (fun it =>
            if it.id = itemA.id then
              { it with
                status := ItemStatus.complete
                error := none
                complianceStatus := some (mapCompliance (some (some RawCompliance.pending)))
                proofPack := some 7 }
            else it)
    ∧ mapCompliance (some (some RawCompliance.pass)) = ComplianceStatus.pass
    ∧ mapCompliance (some (some RawCompliance.fail)) = ComplianceStatus.fail
    ∧ (∀ r : Option (Option RawCompliance),
        r ≠ some (some RawCompliance.pass) → r ≠ some (some RawCompliance.fail) →
        mapCompliance r = ComplianceStatus.warn) :=
  completed_item_compliance
    ⟨Except.ok (), Except.ok (), Except.ok (some (some RawCompliance.pending)),
      Except.ok (), Except.ok (some 7)⟩ 0 itemA [itemA] idleProgress
    (some (some RawCompliance.pending)) (some 7) rfl rfl rfl rfl rfl

/-! ## Cancellation-schedule lemmas (for claim C5) -/

theorem cancelledAt_mono (sched : Option Nat) (t t' : Nat) (h : t ≤ t')
    (hc : cancelledAt sched t = true) : cancelledAt sched t' = true := by
  cases sched with
  | none => simp [cancelledAt] at hc
  | some t0 =>
    simp only [cancelledAt, decide_eq_true_eq] at hc ⊢
    omega

/-- A poll strictly before the flag flips reads false, so `processItem`
behaves as in a cancellation-free run. -/
theorem processItem_before_cancel (e : ItemEnv) (t0 i : Nat) (item : BatchItem)
    (items0 : List BatchItem) (pr0 : BulkProgress) (h : 4 * i + 3 < t0) :
    processItem e (some t0) i item items0 pr0 = processItem e none i item items0 pr0 := by
  have h1 : cancelledAt (some t0) (4 * i + 1) = false := by
    simp only [cancelledAt, decide_eq_false_iff_not]
    omega
  have h2 : cancelledAt (some t0) (4 * i + 2) = false := by
    simp only [cancelledAt, decide_eq_false_iff_not]
    omega
  have h3 : cancelledAt (some t0) (4 * i + 3) = false := by
    simp only [cancelledAt, decide_eq_false_iff_not]
    omega
  have hn : ∀ t, cancelledAt none t = false := fun t => rfl
  simp only [processItem, h1, h2, h3, hn, Bool.false_eq_true, if_false]

/-- Once the flag reads true at the loop top, the loop stops. -/
theorem runLoop_break (env : Nat → ItemEnv) (sched : Option Nat) (rest : List BatchItem)
    (i : Nat) (ls : LoopState) (h : cancelledAt sched (4 * i) = true) :
    runLoop env sched i rest ls = ls := by
  cases rest with
  | nil => rfl
  | cons item rest => simp [runLoop, h]

/-- A block of items whose every poll site lies strictly before the flag
flip runs exactly as in a cancellation-free run. -/
theorem runLoop_before_cancel (env : Nat → ItemEnv) (t0 : Nat) (rest : List BatchItem) :
    ∀ (i : Nat) (ls : LoopState), 4 * (i + rest.length) ≤ t0 →
      runLoop env (some t0) i rest ls = runLoop env none i rest ls := by
  induction rest with
  | nil =>
    intro i ls _
    rfl
  | cons item rest ih =>
    intro i ls h
    have h' : 4 * (i + (rest.length + 1)) ≤ t0 := by simpa using h
    have hc : cancelledAt (some t0) (4 * i) = false := by
      simp only [cancelledAt, decide_eq_false_iff_not]
      omega
    have hcn : cancelledAt none (4 * i) = false := rfl
    simp only [runLoop, hc, hcn, Bool.false_eq_true, if_false]
    rw [processItem_before_cancel (env i) t0 i item ls.items _ (by omega)]
    exact ih (i + 1) _ (by omega)

/-- Splitting the loop at a list concatenation. -/
theorem runLoop_append (env : Nat → ItemEnv) (sched : Option Nat) (l1 : List BatchItem) :
    ∀ (l2 : List BatchItem) (i : Nat) (ls : LoopState),
      runLoop env sched i (l1 ++ l2) ls
        = runLoop env sched (i + l1.length) l2 (runLoop env sched i l1 ls) := by
  induction l1 with
  | nil =>
    intro l2 i ls
    simp [runLoop]
  | cons item l1 ih =>
    intro l2 i ls
    cases hc : cancelledAt sched (4 * i) with
    | true =>
      have hc2 : cancelledAt sched (4 * (i + (item :: l1).length)) = true :=
        cancelledAt_mono sched _ _ (by omega) hc
      rw [runLoop_break env sched _ i ls hc, runLoop_break env sched _ i ls hc,
        runLoop_break env sched l2 _ ls hc2]
    | false =>
      simp only [List.cons_append, runLoop, hc, Bool.false_eq_true, if_false,
        List.length_cons, List.append_eq]
      rw [ih l2 (i + 1) _]
      have harith : i + 1 + l1.length = i + (l1.length + 1) := by omega
      rw [harith]

/-- Every event the loop appends comes from one of the items it was
given. -/
theorem runLoop_log_subset (env : Nat → ItemEnv) (sched : Option Nat) (rest : List BatchItem) :
    ∀ (i : Nat) (ls : LoopState) (ev : Nat × ItemStatus),
      ev ∈ (runLoop env sched i rest ls).log →
      ev ∈ ls.log ∨ ev.1 ∈ rest.map BatchItem.id := by
  induction rest with
  | nil =>
    intro i ls ev h
    exact Or.inl h
  | cons item rest ih =>
    intro i ls ev h
    cases hc : cancelledAt sched (4 * i) with
    | true =>
      rw [runLoop_break env sched _ i ls hc] at h
      exact Or.inl h
    | false =>
      simp only [runLoop, hc, Bool.false_eq_true, if_false] at h
      rcases ih (i + 1) _ ev h with h2 | h2
      · rcases List.mem_append.mp h2 with h2 | h2
        · exact Or.inl h2
        · right
          rw [processItem_log_ids (env i) sched i item ls.items _ ev h2]
          simp
      · right
        simp only [List.map_cons, List.mem_cons]
        exact Or.inr h2

theorem runCompleted_ids (env : Nat → ItemEnv) :
    ∀ (i : Nat) (l : List BatchItem) (c : CompletedItemInfo),
      c ∈ runCompleted env i l → c.id ∈ l.map BatchItem.id := by
  intro i l
  induction l generalizing i with
  | nil =>
    intro c h
    simp [runCompleted] at h
  | cons it rest ih =>
    intro c h
    cases ht : itemThrow (env i) with
    | none =>
      simp only [runCompleted, ht] at h
      rcases List.mem_cons.mp h with h | h
      · rw [h]
        simp
      · simpa using Or.inr (ih (i + 1) c h)
    | some m =>
      simp only [runCompleted, ht] at h
      by_cases hm : m = "Cancelled"
      · rw [if_pos hm] at h
        simpa using Or.inr (ih (i + 1) c h)
      · rw [if_neg hm] at h
        rcases List.mem_cons.mp h with h | h
        · rw [h]
          simp
        · simpa using Or.inr (ih (i + 1) c h)

theorem runErrors_ids (env : Nat → ItemEnv) :
    ∀ (i : Nat) (l : List BatchItem) (c : BatchErrorInfo),
      c ∈ runErrors env i l → c.id ∈ l.map BatchItem.id := by
  intro i l
  induction l generalizing i with
  | nil =>
    intro c h
    simp [runErrors] at h
  | cons it rest ih =>
    intro c h
    cases ht : itemThrow (env i) with
    | none =>
      simp only [runErrors, ht] at h
      simpa using Or.inr (ih (i + 1) c h)
    | some m =>
      simp only [runErrors, ht] at h
      by_cases hm : m = "Cancelled"
      · rw [if_pos hm] at h
        simpa using Or.inr (ih (i + 1) c h)
      · rw [if_neg hm] at h
        rcases List.mem_cons.mp h with h | h
        · rw [h]
          simp
        · simpa using Or.inr (ih (i + 1) c h)

/-- Distinct ids: elements before the middle never collide with
elements after it. -/
theorem nodup_front_tail_ne (a : BatchItem) (l1 l2 : List BatchItem)
    (h : ((l1 ++ a :: l2).map BatchItem.id).Nodup) :
    ∀ x ∈ l2, ∀ y ∈ l1, y.id ≠ x.id := by
  intro x hx y hy heq
  rw [List.map_append] at h
  rcases List.nodup_append.mp h with ⟨_, _, hdisj⟩
  have h1 : y.id ∈ l1.map BatchItem.id := List.mem_map.mpr ⟨y, hy, rfl⟩
  have h2 : y.id ∈ (a :: l2).map BatchItem.id := by
    rw [List.map_cons]
    refine List.mem_cons_of_mem _ ?_
    rw [heq]
    exact List.mem_map.mpr ⟨x, hx, rfl⟩
  exact hdisj h1 h2

/-- A by-id update with the middle element's id rewrites only the middle
element. -/
theorem map_guard_middle (f : BatchItem → BatchItem) (done after : List BatchItem)
    (it : BatchItem)
    (hdone : ∀ x ∈ done, x.id ≠ it.id) (hafter : ∀ x ∈ after, x.id ≠ it.id) :
    (done ++ it :: after).map (fun x => if x.id = it.id then f x else x)
      = done ++ f it :: after := by
  rw [List.map_append, map_guard_id it.id f done hdone]
  simp [map_guard_id it.id f after hafter]

/-- `processItem` for item `k` when the flag flips during the checking
phase (first read true at poll site `4*k+2`): the load and checking
steps run, the item is left with status `checking`, and the call
resolves with the non-error `"Cancelled"` result. -/
theorem processItem_cancel_checking (e : ItemEnv) (k : Nat) (item : BatchItem)
    (raw : Option (Option RawCompliance))
    (hl : e.load = Except.ok ()) (hr : e.ready = Except.ok ())
    (hc : e.comp = Except.ok raw) :
    ∀ (items0 : List BatchItem) (pr0 : BulkProgress),
      (processItem e (some (4 * k + 2)) k item items0 pr0).result
          = ⟨false, none, none, some "Cancelled"⟩
      ∧ (processItem e (some (4 * k + 2)) k item items0 pr0).items
          = items0.map (fun it =>
              if it.id = item.id then { it with status := ItemStatus.checking, error := none }
              else it)
      ∧ (processItem e (some (4 * k + 2)) k item items0 pr0).log
          = [(item.id, ItemStatus.loading), (item.id, ItemStatus.checking)] := by
  intro items0 pr0
  have h1 : cancelledAt (some (4 * k + 2)) (4 * k + 1) = false := by
    simp only [cancelledAt, decide_eq_false_iff_not]
    omega
  have h2 : cancelledAt (some (4 * k + 2)) (4 * k + 2) = true := by
    simp only [cancelledAt, decide_eq_true_eq]
    omega
  refine ⟨?_, ?_, ?_⟩
  · simp [processItem, hl, hr, hc, h1, h2, itemCancelled]
  · simp only [processItem, hl, hr, hc, h1, h2, Bool.false_eq_true, if_false, if_true,
      itemCancelled, updateItemStatus, List.map_map]
    refine List.map_congr_left fun it _ => ?_
    by_cases h : it.id = item.id <;> simp [h, Function.comp]
  · simp [processItem, hl, hr, hc, h1, h2, itemCancelled]

/-- The whole loop when the flag flips during item `k`'s checking phase:
items `0..k-1` run exactly as in a cancellation-free run, item `k` stops
after its checking step with nothing pushed to either summary list, and
the loop never reaches the remaining items. -/
theorem runLoop_cancel_checking_proj (env : Nat → ItemEnv) (front tail : List BatchItem)
    (itemK : BatchItem) (raw : Option (Option RawCompliance))
    (hl : (env front.length).load = Except.ok ())
    (hr : (env front.length).ready = Except.ok ())
    (hc : (env front.length).comp = Except.ok raw) :
    ∀ ls0 : LoopState,
      (runLoop env (some (4 * front.length + 2)) 0 (front ++ itemK :: tail) ls0).completedItems
          = (runLoop env none 0 front ls0).completedItems
      ∧ (runLoop env (some (4 * front.length + 2)) 0 (front ++ itemK :: tail) ls0).errors
          = (runLoop env none 0 front ls0).errors
      ∧ (runLoop env (some (4 * front.length + 2)) 0 (front ++ itemK :: tail) ls0).items
          = ((runLoop env none 0 front ls0).items).map (fun it =>
              if it.id = itemK.id then { it with status := ItemStatus.checking, error := none }
              else it)
      ∧ (runLoop env (some (4 * front.length + 2)) 0 (front ++ itemK :: tail) ls0).log
          = (runLoop env none 0 front ls0).log
            ++ [(itemK.id, ItemStatus.loading), (itemK.id, ItemStatus.checking)] := by
  intro ls0
  rw [runLoop_append env (some (4 * front.length + 2)) front (itemK :: tail) 0 ls0,
    runLoop_before_cancel env (4 * front.length + 2) front 0 ls0 (by omega)]
  rw [show (0 + front.length) = front.length by omega]
  have hcc : cancelledAt (some (4 * front.length + 2)) (4 * front.length) = false := by
    simp only [cancelledAt, decide_eq_false_iff_not]
    omega
  have hstep := processItem_cancel_checking (env front.length) front.length itemK raw hl hr hc
  have hres := fun items0 pr0 => (hstep items0 pr0).1
  have hit := fun items0 pr0 => (hstep items0 pr0).2.1
  have hlg := fun items0 pr0 => (hstep items0 pr0).2.2
  have hbrk : cancelledAt (some (4 * front.length + 2)) (4 * (front.length + 1)) = true := by
    simp only [cancelledAt, decide_eq_true_eq]
    omega
  simp only [runLoop, hcc, Bool.false_eq_true, if_false, hres, hit, hlg]
  rw [runLoop_break env (some (4 * front.length + 2)) tail (front.length + 1) _ hbrk]
  simp

/-- C5: if the cancellation flag is set while item `k` (= the item after
`front`) is in its checking phase, the run ends with phase `cancelled`,
item `k` appears in neither `completedItems` nor `errors`, the final
item list keeps every later item exactly as it was queued (so items
`k+1..n` never leave `pending`), and no item-status event is ever
emitted for any later item. -/
theorem cancellation_during_checking (front tail : List BatchItem) (itemK : BatchItem)
    (ci : Int) (pr : BulkProgress) (env : Nat → ItemEnv)
    (raw : Option (Option RawCompliance))
    (hids : ((front ++ itemK :: tail).map BatchItem.id).Nodup)
    (hl : (env front.length).load = Except.ok ())
    (hr : (env front.length).ready = Except.ok ())
    (hc : (env front.length).comp = Except.ok raw) :
    (startProcessing ⟨front ++ itemK :: tail, false, ci⟩ pr (Except.ok ()) env
        (some (4 * front.length + 2))).progress.phase = Phase.cancelled
    ∧ itemK.id ∉ (startProcessing ⟨front ++ itemK :: tail, false, ci⟩ pr (Except.ok ()) env
        (some (4 * front.length + 2))).progress.completedItems.map CompletedItemInfo.id
    ∧ itemK.id ∉ (startProcessing ⟨front ++ itemK :: tail, false, ci⟩ pr (Except.ok ()) env
        (some (4 * front.length + 2))).progress.errors.map BatchErrorInfo.id
    ∧ (startProcessing ⟨front ++ itemK :: tail, false, ci⟩ pr (Except.ok ()) env
        (some (4 * front.length + 2))).state.items
        = runOutcome env 0 front
            ++ { itemK with status := ItemStatus.checking, error := none } :: tail
    ∧ (∀ x ∈ tail, ∀ ev ∈ (startProcessing ⟨front ++ itemK :: tail, false, ci⟩ pr (Except.ok ())
        env (some (4 * front.length + 2))).log, ev.1 ≠ x.id) := by
  have hn0 : (front ++ itemK :: tail).length ≠ 0 := by simp
  have hfin : cancelledAt (some (4 * front.length + 2))
      (4 * (front ++ itemK :: tail).length) = true := by
    simp only [cancelledAt, decide_eq_true_eq, List.length_append, List.length_cons]
    omega
  have hproj := runLoop_cancel_checking_proj env front tail itemK raw hl hr hc
  have hmidne : ∀ x ∈ front ++ tail, x.id ≠ itemK.id := nodup_middle_ne itemK front tail hids
  refine ⟨?_, ?_, ?_, ?_, ?_⟩
  · unfold startProcessing
    simp only [hn0, Bool.false_eq_true, or_false, if_false, hfin, if_true]
  · unfold startProcessing
    simp only [hn0, Bool.false_eq_true, or_false, if_false, hfin, if_true]
    rw [(hproj _).1, (runLoop_lists_none env front 0 _).1]
    intro hmem
    simp only [List.nil_append, List.mem_map] at hmem
    obtain ⟨c, hcmem, hcid⟩ := hmem
    have hcin := runCompleted_ids env 0 front c hcmem
    rw [hcid] at hcin
    obtain ⟨y, hy, hyid⟩ := List.mem_map.mp hcin
    exact hmidne y (by simp [hy]) hyid
  · unfold startProcessing
    simp only [hn0, Bool.false_eq_true, or_false, if_false, hfin, if_true]
    rw [(hproj _).2.1, (runLoop_lists_none env front 0 _).2]
    intro hmem
    simp only [List.nil_append, List.mem_map] at hmem
    obtain ⟨c, hcmem, hcid⟩ := hmem
    have hcin := runErrors_ids env 0 front c hcmem
    rw [hcid] at hcin
    obtain ⟨y, hy, hyid⟩ := List.mem_map.mp hcin
    exact hmidne y (by simp [hy]) hyid
  · unfold startProcessing
    simp only [hn0, Bool.false_eq_true, or_false, if_false, hfin, if_true]
    rw [(hproj _).2.2.1, runLoop_items_none env front 0 _]
    have hli := loopItems_eq_runOutcome env front [] (itemK :: tail) 0 (by simpa using hids)
    simp only [List.nil_append] at hli
    rw [hli]
    have hdone : ∀ x ∈ runOutcome env 0 front, x.id ≠ itemK.id := by
      intro x hx
      have hxin : x.id ∈ (runOutcome env 0 front).map BatchItem.id :=
        List.mem_map.mpr ⟨x, hx, rfl⟩
      rw [runOutcome_ids] at hxin
      obtain ⟨y, hy, hyid⟩ := List.mem_map.mp hxin
      rw [← hyid]
      exact hmidne y (by simp [hy])
    have hafter : ∀ x ∈ tail, x.id ≠ itemK.id := fun x hx => hmidne x (by simp [hx])
    exact map_guard_middle _ (runOutcome env 0 front) tail itemK hdone hafter
  · unfold startProcessing
    simp only [hn0, Bool.false_eq_true, or_false, if_false, hfin, if_true]
    intro x hx ev hev
    rw [(hproj _).2.2.2] at hev
    rcases List.mem_append.mp hev with hev | hev
    · rcases runLoop_log_subset env none front 0 _ ev hev with hev2 | hev2
      · simp at hev2
      · obtain ⟨y, hy, hyid⟩ := List.mem_map.mp hev2
        rw [← hyid]
        exact (nodup_front_tail_ne itemK front tail hids x hx y hy)
    · have hev1 : ev.1 = itemK.id := by
        rcases List.mem_cons.mp hev with h | h
        · rw [h]
        · rcases List.mem_cons.mp h with h | h
          · rw [h]
          · simp at h
      rw [hev1]
      intro heq
      exact hmidne x (by simp [hx]) heq.symm

/-- Closed-input evaluation of `cancellation_during_checking`: the
two-item run cancelled while item 1 is checking (`cancelRun`). -/
theorem cancellation_during_checking_witness :
    cancelRun.progress.phase = Phase.cancelled
    ∧ itemB.id ∉ cancelRun.progress.completedItems.map CompletedItemInfo.id
    ∧ itemB.id ∉ cancelRun.progress.errors.map BatchErrorInfo.id
    ∧ cancelRun.state.items
        = runOutcome (fun _ => okEnv) 0 [itemA]
            ++ { itemB with status := ItemStatus.checking, error := none } :: []
    ∧ (∀ x ∈ ([] : List BatchItem), ∀ ev ∈ cancelRun.log, ev.1 ≠ x.id) :=
  cancellation_during_checking [itemA] [] itemB (-1) idleProgress (fun _ => okEnv)
    (some (some RawCompliance.pass)) (by decide) rfl rfl rfl

end Einmir
